import Mathlib

/-!
Verification of the HTTP request/response core of `RustHttpServer`.

The Rust sources under `src/` are shallowly embedded: byte buffers become
`List Nat` (each element a byte value), `&str`/`String` become `String`,
`Result<T>` from `crate::error` becomes `Except String T` carrying the
error message, and `BTreeMap` becomes a `List (key × value)` kept sorted by
key by an insert-or-replace operation, so that list order models the map's
ascending-key iteration order.

`crate::utils::split`, `crate::constant` and `crate::error` are not part of
the provided sources; they are modelled from the spec where marked.
-/

set_option autoImplicit false
set_option maxRecDepth 100000

deriving instance DecidableEq for Except

namespace RustHttp

/-- Bytes of a string. The Rust code stores UTF-8 bytes; this model maps each
char to its code point, which coincides with the byte for ASCII data (all
protocol-relevant text here is ASCII). -/
def strBytes (s : String) : List Nat := s.data.map Char.toNat

/-- Model of Rust `String::from_utf8_lossy` restricted to the decoding
direction used by the code: each byte becomes the char of its value, which
is exact for ASCII input (non-ASCII bytes would be replaced by U+FFFD in
Rust; no claim exercises that case). -/
def bytesToStr (l : List Nat) : String := String.mk (l.map Char.ofNat)

/-- ASCII model of Rust `char` lower-casing: `A`-`Z` map to `a`-`z`. -/
def asciiLower (c : Char) : Char :=
  if 'A' ≤ c ∧ c ≤ 'Z' then Char.ofNat (c.toNat + 32) else c

/-- Model of Rust `str::to_lowercase` (ASCII fragment). -/
def rustLower (s : String) : String := String.mk (s.data.map asciiLower)

/-- Model of Rust `str::trim`: strip whitespace from both ends. -/
def rustTrim (s : String) : String :=
  String.mk (((s.data.dropWhile Char.isWhitespace).reverse.dropWhile
    Char.isWhitespace).reverse)

/-- Splitter underlying Rust `str::split(char)`: every occurrence of a
separator char starts a new piece; always returns at least one piece. -/
def splitCharAux (c : Char) : List Char → List (List Char)
  | [] => [[]]
  | a :: rest =>
    if a = c then [] :: splitCharAux c rest
    else
      match splitCharAux c rest with
      | h :: t => (a :: h) :: t
      | [] => [[a]]

/-- Model of Rust `str::split(char)`. -/
def splitChar (c : Char) (s : String) : List String :=
  (splitCharAux c s.data).map String.mk

/-- Model of Rust `str::splitn(2, char)` as used via two `next()` calls:
the prefix before the first occurrence of `c`, and, when `c` occurs, the
remainder after it. -/
def splitn2Char (c : Char) (s : String) : String × Option String :=
  let pre := s.data.takeWhile (fun a => a ≠ c)
  if pre.length = s.data.length then (s, none)
  else (String.mk pre, some (String.mk (s.data.drop (pre.length + 1))))

/-- Does `pat` occur at the head of `l`? (model of slice prefix testing). -/
def listStartsWith : List Nat → List Nat → Bool
  | [], _ => true
  | _ :: _, [] => false
  | a :: asR, b :: bs => a = b && listStartsWith asR bs

/-- Char-list version of prefix testing, for `str::starts_with` below. -/
def charListIsPre : List Char → List Char → Bool
  | [], _ => true
  | _ :: _, [] => false
  | a :: asR, b :: bs => a = b && charListIsPre asR bs

/-- Model of Rust `str::starts_with(&str)`: byte-prefix testing, which for
valid UTF-8 coincides with char-prefix testing. -/
def strStartsWith (s pre : String) : Bool := charListIsPre pre.data s.data

/-- Lexicographic char-list comparison, for the string order below. -/
def charListLt : List Char → List Char → Bool
  | [], [] => false
  | [], _ :: _ => true
  | _ :: _, [] => false
  | a :: asR, b :: bs =>
    if a.toNat < b.toNat then true
    else if b.toNat < a.toNat then false
    else charListLt asR bs

/-- Model of the `Ord` used by `BTreeMap<String, _>`: lexicographic UTF-8
byte order, which equals lexicographic code-point order. -/
def strLt (a b : String) : Bool := charListLt a.data b.data

/-- First index at which the byte pattern `pat` occurs in `l`; models
`windows(n).position(...)` in `read_head` and the search inside the
splitting utility. -/
def findSeq (pat : List Nat) : List Nat → Option Nat
  | [] => if listStartsWith pat [] then some 0 else none
  | a :: rest =>
    if listStartsWith pat (a :: rest) then some 0
    else (findSeq pat rest).map (fun i => i + 1)

/-- Modelled from the spec: the repository's `utils::split` (its module is
not under `src/`) splits a byte sequence on each left-most occurrence of a
separator sequence, yielding the segments between occurrences; it always
yields at least one segment ("Split the body on the delimiter"). Fuel
(`l.length + 1`) bounds the recursion; it is never exhausted for a
non-empty separator. -/
def splitSeqAux : Nat → List Nat → List Nat → List (List Nat)
  | 0, l, _ => [l]
  | fuel + 1, l, sep =>
    match findSeq sep l with
    | none => [l]
    | some i => l.take i :: splitSeqAux fuel (l.drop (i + sep.length)) sep

/-- Modelled from the spec: see `splitSeqAux`. -/
def splitSeq (l sep : List Nat) : List (List Nat) :=
  splitSeqAux (l.length + 1) l sep

/-- Insert-or-replace into a key-sorted association list; models
`BTreeMap::insert` (the list, in order, is the map in ascending key
order). -/
def mapInsert {α : Type} (k : String) (v : α) :
    List (String × α) → List (String × α)
  | [] => [(k, v)]
  | (k', v') :: rest =>
    if k = k' then (k, v) :: rest
    else if strLt k k' then (k, v) :: (k', v') :: rest
    else (k', v') :: mapInsert k v rest

/-- Lookup in the association-list model of `BTreeMap` (keys are unique, so
first match is the match); models `BTreeMap::get`. -/
def mapGet {α : Type} (m : List (String × α)) (k : String) : Option α :=
  (m.find? (fun kv => kv.1 = k)).map (fun kv => kv.2)

/-- Modelled from the spec: `crate::constant` is not under `src/`; the spec
names the default content type `text/plain`. -/
def TEXT_PLAIN : String := "text/plain"

/-- Modelled from the spec: the form-encoding content type the decoder
dispatches on. -/
def APPLICATION_X_WWW_FORM_URLENCODED : String :=
  "application/x-www-form-urlencoded"

/-- Modelled from the spec: the multipart content type the decoder
dispatches on. -/
def MULTIPART_FORM_DATA : String := "multipart/form-data"

/-- `request.rs`: supported HTTP methods. -/
inductive HttpMethod
  | Unknown
  | Options
  | Get
  | Post
deriving DecidableEq, Repr

/-- `request.rs`: `impl From<&str> for HttpMethod` (exact, case-sensitive
match; anything else is `Unknown`). -/
def HttpMethod.fromStr : String → HttpMethod
  | "OPTIONS" => .Options
  | "GET" => .Get
  | "POST" => .Post
  | _ => .Unknown

/-- `request.rs`: supported HTTP versions. -/
inductive HttpVersion
  | Unknown
  | V1_1
  | V2_0
deriving DecidableEq, Repr

/-- `request.rs`: `impl From<&str> for HttpVersion`. -/
def HttpVersion.fromStr : String → HttpVersion
  | "HTTP/1.1" => .V1_1
  | "HTTP/2.0" => .V2_0
  | _ => .Unknown

/-- Model of Rust `str::lines`: split on `\n`, drop a final empty piece
produced by a trailing newline, and strip one trailing `\r` per line. -/
def rustLines (s : String) : List String :=
  let parts := splitChar '\n' s
  let parts := if parts.getLast? = some "" then parts.dropLast else parts
  parts.map (fun ln =>
    if ln.data.getLast? = some '\r' then String.mk ln.data.dropLast else ln)

/-- Splitter on a char predicate, keeping empty pieces (helper for
`rustSplitWhitespace`). -/
def splitPredAux (p : Char → Bool) : List Char → List (List Char)
  | [] => [[]]
  | a :: rest =>
    if p a then [] :: splitPredAux p rest
    else
      match splitPredAux p rest with
      | h :: t => (a :: h) :: t
      | [] => [[a]]

/-- Model of Rust `str::split_whitespace`: split on whitespace, discarding
empty pieces. -/
def rustSplitWhitespace (s : String) : List String :=
  ((splitPredAux Char.isWhitespace s.data).map String.mk).filter
    (fun piece => piece ≠ "")

/-- `request.rs` `parse_parameters`, per piece: split on the first `=`; key
trimmed and lower-cased, value trimmed, missing value is the empty
string. -/
def parse_piece (p : String) : String × String :=
  match splitn2Char '=' p with
  | (k, some v) => (rustLower (rustTrim k), rustTrim v)
  | (k, none) => (rustLower (rustTrim k), "")

/-- `request.rs` `parse_parameters`, generic in `process_value` as in the
source. The source's per-piece `ok_or` error ("损坏的参数") is unreachable
because `splitn` always yields a first piece, so the `Except` is always
`ok`; the wrapper mirrors the Rust signature. -/
def parse_parameters_gen {V : Type} (raw : String) (process_value : String → V) :
    Except String (List (String × V)) :=
  .ok ((splitChar '&' raw).foldl
    (fun m p =>
      let kv := parse_piece p
      mapInsert kv.1 (process_value kv.2) m) [])

/-- `parse_parameters` instantiated as for `search_params` (`|v| v`). -/
def parse_parameters (raw : String) : Except String (List (String × String)) :=
  parse_parameters_gen raw (fun v => v)

/-- Is `b` a UTF-8 continuation byte (`0x80`-`0xBF`)? -/
def utf8Cont (b : Nat) : Bool := 0x80 ≤ b && b ≤ 0xBF

/-- One step of strict UTF-8 decoding: the code point encoded at the head
of the byte list together with the number of bytes it occupies, or `none`
on a truncated, overlong or surrogate-encoding sequence. -/
def utf8Step : List Nat → Option (Nat × Nat)
  | [] => none
  | b :: rest =>
    if b ≤ 0x7F then some (b, 1)
    else if 0xC2 ≤ b && b ≤ 0xDF then
      match rest with
      | c :: _ =>
        if utf8Cont c then some ((b - 0xC0) * 64 + (c - 0x80), 2) else none
      | [] => none
    else if 0xE0 ≤ b && b ≤ 0xEF then
      match rest with
      | c :: d :: _ =>
        let cOk :=
          if b = 0xE0 then 0xA0 ≤ c && c ≤ 0xBF
          else if b = 0xED then 0x80 ≤ c && c ≤ 0x9F
          else utf8Cont c
        if cOk && utf8Cont d then
          some ((b - 0xE0) * 4096 + (c - 0x80) * 64 + (d - 0x80), 3)
        else none
      | _ => none
    else if 0xF0 ≤ b && b ≤ 0xF4 then
      match rest with
      | c :: d :: e :: _ =>
        let cOk :=
          if b = 0xF0 then 0x90 ≤ c && c ≤ 0xBF
          else if b = 0xF4 then 0x80 ≤ c && c ≤ 0x8F
          else utf8Cont c
        if cOk && utf8Cont d && utf8Cont e then
          some ((b - 0xF0) * 262144 + (c - 0x80) * 4096 +
            (d - 0x80) * 64 + (e - 0x80), 4)
        else none
      | _ => none
    else none

/-- Fuel-driven iteration of `utf8Step`; every step consumes at least one
byte, so fuel equal to the list length never runs out. -/
def utf8DecodeAux : Nat → List Nat → Option (List Char)
  | _, [] => some []
  | 0, _ :: _ => none
  | fuel + 1, b :: rest =>
    match utf8Step (b :: rest) with
    | none => none
    | some (cp, n) =>
      (utf8DecodeAux fuel ((b :: rest).drop n)).map
        (fun cs => Char.ofNat cp :: cs)

/-- Model of Rust `String::from_utf8`: strict UTF-8 decoding, rejecting
truncated or overlong sequences and surrogate code points. -/
def utf8Decode (l : List Nat) : Option (List Char) := utf8DecodeAux l.length l

/-- `request.rs` `parse_multipart_form`: extract the `name="..."` attribute
from a `Content-Disposition:` line (first and last char of the attribute
value — the quotes — stripped, result lower-cased). CAUTION: for an
attribute value shorter than 2 chars (`name=` or `name=x`) the Rust slice
`name[1..(name.len() - 1)]` (request.rs:216) panics, while `drop`/`dropLast`
here yield `""`; this definition is faithful to the program only on inputs
where `extract_name?` (the panic-aware companion below) returns `some`,
as proved by `extract_name_agree`. -/
def extract_name (line_str : String) : Option String :=
  (splitChar ';' line_str).findSome? (fun s0 =>
    let s := rustTrim s0
    if strStartsWith s "name=" then
      match (splitChar '=' s).get? 1 with
      | some nm => some (rustLower (String.mk ((nm.data.drop 1).dropLast)))
      | none => none
    else none)

/-- `request.rs` `parse_multipart_form`: the header scan of one part. Walks
the lines from the top, recomputing `name` at each `Content-Disposition:`
line, and stops at the first empty line, whose successor index is the data
line; if no empty line occurs the data index stays `0` as in the source
(the dead `_content_type` bookkeeping of the source is not modelled). -/
def scan_lines : List (List Nat) → Nat → Option String → Option String × Nat
  | [], _, name => (name, 0)
  | line :: rest, i, name =>
    let line_str := bytesToStr line
    let name :=
      if strStartsWith line_str "Content-Disposition:" then extract_name line_str
      else name
    if line.isEmpty then (name, i + 1)
    else scan_lines rest (i + 1) name

/-- `request.rs` `parse_multipart_form`, per section: strip the closing
delimiter (plus the two preceding bytes) when the section ends with it,
then split into `\r\n` lines. CAUTION: the Rust slice bound
`section.len() - last_sep.len() - 2` (request.rs:201) underflows — and the
program aborts with a panic — when the section ends with the closing
delimiter but has fewer than 2 bytes before it; this definition truncates
instead, so it is faithful to the program only on inputs where
`parse_section?` (the panic-aware companion below) returns `some`, as
proved by `parse_section_agree`. -/
def section_lines (last_sep : List Nat) (sec : List Nat) : List (List Nat) :=
  let sec :=
    if last_sep.isSuffixOf sec then
      sec.take (sec.length - last_sep.length - 2)
    else sec
  splitSeq sec [13, 10]

/-- `request.rs` `parse_multipart_form`, per section: scan the sub-headers
of the section's lines and produce the `name -> value` entry or the
source's two fatal errors. -/
def parse_section (last_sep : List Nat) (sec : List Nat) :
    Except String (String × List Nat) :=
  let lines := section_lines last_sep sec
  let scanned := scan_lines lines 0 none
  match scanned.1 with
  | none => .error "表单内容没有name属性"
  | some name =>
    match lines.get? scanned.2 with
    | none => .error "表单内容损坏"
    | some value => .ok (name, value)

/-- `request.rs` `parse_multipart_form`: the section loop, with the early
return of the source's `?` operators. -/
def multipart_go (last_sep : List Nat) :
    List (List Nat) → List (String × List Nat) →
    Except String (List (String × List Nat))
  | [], params => .ok params
  | sec :: rest, params =>
    match parse_section last_sep sec with
    | .error e => .error e
    | .ok (name, value) => multipart_go last_sep rest (mapInsert name value params)

/-- `request.rs` `parse_multipart_form`: split the body on `--boundary\r\n`,
drop the first (preamble) section, then decode each section. -/
def parse_multipart_form (body : List Nat) (boundary : String) :
    Except String (List (String × List Nat)) :=
  let sections := splitSeq body (strBytes ("--" ++ boundary ++ "\r\n"))
  let last_sep := strBytes ("--" ++ boundary ++ "--\r\n")
  multipart_go last_sep (sections.drop 1) []

/-- `request.rs` `parse_body`: dispatch on the `content-type` header
(default `text/plain`), extracting a `boundary=` attribute from the
`;`-separated parts; urlencoded bodies go through `parse_parameters` with
byte values, multipart through `parse_multipart_form`, anything else is
stored verbatim under `"__raw"`. -/
def parse_body (headers : List (String × String)) (body : List Nat) :
    Except String (List (String × List Nat)) :=
  let ct? := mapGet headers "content-type"
  let boundary : Option String :=
    match ct? with
    | none => none
    | some s =>
      (splitChar ';' s).foldl
        (fun acc part =>
          let part := rustTrim part
          if strStartsWith part "boundary=" then (splitChar '=' part).get? 1
          else acc) none
  let content_type :=
    match ct? with
    | none => TEXT_PLAIN
    | some s => rustTrim s
  if strStartsWith content_type APPLICATION_X_WWW_FORM_URLENCODED then
    match utf8Decode body with
    | none => .error "invalid utf-8"
    | some cs => parse_parameters_gen (String.mk cs) strBytes
  else if strStartsWith content_type MULTIPART_FORM_DATA then
    match boundary with
    | none => .error "没有有效的boundary"
    | some b => parse_multipart_form body b
  else .ok [("__raw", body)]

/-- `request.rs`: the decoded request. The body field keeps the source's
`_body` name. -/
structure HttpRequest where
  method : HttpMethod
  url : String
  version : HttpVersion
  ip : String
  headers : List (String × String)
  search_params : List (String × String)
  _body : List (String × List Nat)
deriving DecidableEq, Repr

/-- `request.rs` `HttpRequest::from`, the branch taken when the request line
has a second (url) token: split it on the first `?` into the stored url and
the raw query string. (The source's `ok_or` on the first `splitn` piece is
unreachable: `splitn` always yields a first piece.) -/
def parse_url_token (full_url : String) : String × String :=
  match splitn2Char '?' full_url with
  | (u, some q) => (u, q)
  | (u, none) => (u, "")

/-- `request.rs` `HttpRequest::from`: request line split on whitespace into
method / optional url (defaulting to "/" with empty query when absent) /
version (whose absence is the error), then the header lines, the query
parameters and the decoded body. -/
def HttpRequest.from (raw_header : String) (raw_body : List Nat) (ip : String) :
    Except String HttpRequest :=
  match rustLines raw_header with
  | [] => .error "获取请求行失败"
  | req_ln :: header_rest =>
    match rustSplitWhitespace req_ln with
    | [] => .error "无法解析请求方法"
    | method_tok :: words1 =>
      let method := HttpMethod.fromStr method_tok
      match words1 with
      | [] =>
        -- url absent: the source substitutes "/" and an empty query, then
        -- fails on the third `words.next()` (the version token).
        .error "无法解析http协议版本"
      | full_url :: words2 =>
        let urlq := parse_url_token full_url
        match words2 with
        | [] => .error "无法解析http协议版本"
        | version_tok :: _ =>
          let version := HttpVersion.fromStr version_tok
          let headers := header_rest.foldl
            (fun m hl =>
              match splitn2Char ':' hl with
              | (_, none) => m
              | (k, some v) => mapInsert (rustLower (rustTrim k)) (rustTrim v) m)
            []
          match parse_parameters urlq.2 with
          | .error e => .error e
          | .ok search_params =>
            match parse_body headers raw_body with
            | .error e => .error e
            | .ok body =>
              .ok ⟨method, urlq.1, version, ip, headers, search_params, body⟩

/-- `server.rs`: the configuration knobs. -/
structure HttpSettings where
  max_header_size : Nat
  max_body_size : Nat
  header_buffer : Nat
  body_buffer : Nat
  header_read_attempts : Nat
  body_read_attempts : Nat
deriving DecidableEq, Repr

/-- `server.rs` `HttpSettings::new`: the default configuration. -/
def HttpSettings.new : HttpSettings :=
  ⟨8192, 8192 * 1024, 8192, 8192, 3, 3⟩

/-- `server.rs` `read_head`, with the connection modelled as the list of
byte chunks its successive successful reads return (each real read returns
at most `header_buffer` bytes; the theorems quantify over all chunk lists).
An exhausted list models the `while let` ending on a read error, which
falls through to the same final failure as a closed stream. Loop body, in
source order: a zero-byte read breaks out to the final failure; a read
overflowing `max_header_size` is the size-limit failure; after appending,
the first `\r\n\r\n` (if any) splits header block from leftover body bytes
and the header block must decode as UTF-8; otherwise a read shorter than
`header_buffer` spends one of the `header_read_attempts`. -/
def read_head_loop (s : HttpSettings) :
    List (List Nat) → List Nat → Nat → Except String (List Nat × List Nat)
  | [], _, _ => .error "请求头读取失败"
  | chunk :: rest, header, read_fails =>
    if chunk.length = 0 then .error "请求头读取失败"
    else if s.max_header_size < header.length + chunk.length then
      .error "请求头大小超出限制"
    else
      let header := header ++ chunk
      match findSeq [13, 10, 13, 10] header with
      | some pos =>
        let head := header.take (pos + 4)
        let body := header.drop (pos + 4)
        match utf8Decode head with
        | some _ => .ok (head, body)
        | none => .error "invalid utf-8"
      | none =>
        if chunk.length < s.header_buffer then
          if s.header_read_attempts < read_fails + 1 then
            .error "读取请求头失败"
          else read_head_loop s rest header (read_fails + 1)
        else read_head_loop s rest header read_fails

/-- `server.rs` `read_head`: the loop started on empty buffers. -/
def read_head (s : HttpSettings) (reads : List (List Nat)) :
    Except String (List Nat × List Nat) :=
  read_head_loop s reads [] 0

/-- `server.rs` `read_body`, the `while body.len() < content_len` loop,
with the connection modelled as the list of byte chunks its successive
successful reads return. A real read returns at most
`min body_buffer (content_len - body.len())` bytes (the requested buffer
size); the model lets the chunk list drive the loop, and the theorems
cover all chunk lists. A read error and an exhausted budget share the
message "请求体读取失败" in the source; an exhausted chunk list models the
read error. The short-read test compares against the full `body_buffer`,
not the requested chunk size, and runs after the append but before the
loop condition is re-checked, exactly as in the source. -/
def read_body_loop (s : HttpSettings) :
    List (List Nat) → List Nat → Nat → Nat → Except String (List Nat)
  | [], body, content_len, _ =>
    if content_len ≤ body.length then .ok body else .error "请求体读取失败"
  | chunk :: rest, body, content_len, read_fails =>
    if content_len ≤ body.length then .ok body
    else
      let body := body ++ chunk
      if chunk.length < s.body_buffer then
        if s.body_read_attempts < read_fails + 1 then
          .error "请求体读取失败"
        else read_body_loop s rest body content_len (read_fails + 1)
      else read_body_loop s rest body content_len read_fails

/-- `server.rs` `read_body`: the up-front size-limit check, then the read
loop with a fresh failure counter. -/
def read_body (s : HttpSettings) (reads : List (List Nat)) (body : List Nat)
    (content_len : Nat) : Except String (List Nat) :=
  if s.max_body_size < content_len then .error "请求体大小超出限制"
  else read_body_loop s reads body content_len 0

/-- `response.rs`: the status codes. -/
inductive HttpStatus
  | Ok
  | BadRequest
  | NotFound
  | InternalServerError
deriving DecidableEq, Repr

/-- `response.rs` `HttpStatus::to_str`. -/
def HttpStatus.to_str : HttpStatus → String
  | .Ok => "200 OK"
  | .BadRequest => "400 Bad Request"
  | .NotFound => "404 Not Found"
  | .InternalServerError => "500 Internal Server Error"

/-- `response.rs`: the response value; the headers list, in order, models
the `BTreeMap` in ascending key order, and the body is raw bytes. -/
structure HttpResponse where
  version : String
  status : HttpStatus
  headers : List (String × String)
  body : Option (List Nat)
deriving DecidableEq, Repr

/-- `response.rs` `HttpResponse::headers`: the header lines accumulated in
map (key) order as `"{key}: {value}\r\n"`. -/
def HttpResponse.headersStr (r : HttpResponse) : String :=
  r.headers.foldl (fun acc kv => acc ++ (kv.1 ++ ": " ++ kv.2 ++ "\r\n")) ""

/-- `response.rs` `HttpResponse::to_vec`: the format string
`"{} {}\r\n{}Content-Length: {}\r\n\r\n"` rendered to bytes, then the body
bytes appended when present; the `Content-Length` value is the body's
length, `0` when absent. -/
def HttpResponse.to_vec (r : HttpResponse) : List Nat :=
  let n : Nat :=
    match r.body with
    | none => 0
    | some b => b.length
  strBytes (r.version ++ " " ++ r.status.to_str ++ "\r\n" ++ r.headersStr ++
      "Content-Length: " ++ toString n ++ "\r\n\r\n") ++
    (match r.body with
     | none => []
     | some b => b)

/-- The serialization layout exactly as the spec words it: status line,
each header line in key order, a `Content-Length` line computed from the
body alone, a blank line, then the raw body bytes. Stated separately from
`HttpResponse.to_vec` so that the refinement can be proved. -/
def to_vec_spec (r : HttpResponse) : List Nat :=
  strBytes (r.version ++ " " ++ r.status.to_str ++ "\r\n") ++
  (r.headers.map (fun kv => strBytes (kv.1 ++ ": " ++ kv.2 ++ "\r\n"))).flatten ++
  strBytes ("Content-Length: " ++
    toString (match r.body with | none => 0 | some b => b.length) ++ "\r\n") ++
  strBytes "\r\n" ++
  (match r.body with | none => [] | some b => b)

/-! ## Helper lemmas -/

theorem strBytes_append (a b : String) :
    strBytes (a ++ b) = strBytes a ++ strBytes b := by
  simp [strBytes, String.data_append]

theorem strBytes_empty : strBytes "" = [] := rfl

theorem strBytes_crlfcrlf :
    strBytes "\r\n\r\n" = strBytes "\r\n" ++ strBytes "\r\n" := rfl

theorem headersStr_foldl_strBytes (l : List (String × String)) (acc : String) :
    strBytes (l.foldl (fun a kv => a ++ (kv.1 ++ ": " ++ kv.2 ++ "\r\n")) acc) =
      strBytes acc ++
        (l.map (fun kv => strBytes (kv.1 ++ ": " ++ kv.2 ++ "\r\n"))).flatten := by
  induction l generalizing acc with
  | nil => simp
  | cons kv rest ih => simp [ih, strBytes_append, List.append_assoc]

theorem mapInsert_ne_nil {α : Type} (k : String) (v : α)
    (m : List (String × α)) : mapInsert k v m ≠ [] := by
  cases m with
  | nil => simp [mapInsert]
  | cons kv rest =>
    simp only [mapInsert]
    split <;> [simp; skip]
    split <;> simp

theorem foldl_mapInsert_ne_nil {V : Type} (process_value : String → V)
    (pieces : List String) (acc : List (String × V)) (hacc : acc ≠ []) :
    pieces.foldl (fun m p =>
      let kv := parse_piece p
      mapInsert kv.1 (process_value kv.2) m) acc ≠ [] := by
  induction pieces generalizing acc with
  | nil => exact hacc
  | cons p rest ih => exact ih _ (mapInsert_ne_nil _ _ _)

theorem splitCharAux_ne_nil (c : Char) (l : List Char) :
    splitCharAux c l ≠ [] := by
  cases l with
  | nil => simp [splitCharAux]
  | cons a rest =>
    simp only [splitCharAux]
    split
    · simp
    · split <;> simp

theorem parse_parameters_gen_ne_nil {V : Type} (raw : String)
    (process_value : String → V) (m : List (String × V))
    (h : parse_parameters_gen raw process_value = .ok m) : m ≠ [] := by
  simp only [parse_parameters_gen, Except.ok.injEq] at h
  subst h
  cases hs : splitChar '&' raw with
  | nil =>
    simp only [splitChar, List.map_eq_nil_iff] at hs
    exact absurd hs (splitCharAux_ne_nil '&' raw.data)
  | cons p rest =>
    exact foldl_mapInsert_ne_nil process_value rest _ (mapInsert_ne_nil _ _ _)

/-! ## Claims -/

/-- C1 (counterexample): for the request bytes
`GET /?x=1 HTTP/1.1\r\nHost: h\r\n\r\n` with empty body from `127.0.0.1`,
`HttpRequest::from` succeeds, but the stored url is `"/"` — the query
string is split off before the url is stored — and the body mapping is
`{"__raw": b""}`, not the empty mapping, so the claim's `url = "/?x=1"`
and `body = {}` are both false on the code. -/
theorem C1_counterexample :
    HttpRequest.from "GET /?x=1 HTTP/1.1\r\nHost: h\r\n\r\n" [] "127.0.0.1" =
      Except.ok
        ⟨.Get, "/", .V1_1, "127.0.0.1", [("host", "h")], [("x", "1")],
          [("__raw", [])]⟩ ∧
    ("/" : String) ≠ "/?x=1" ∧ [("__raw", ([] : List Nat))] ≠ [] := by
  refine ⟨by decide, by decide, by decide⟩

/-- C1 (amended): the request decodes with method `Get`, url `"/"` (the
query split off), search_params `{"x": "1"}`, and body
`{"__raw": b""}` (an unrecognized content type stores the whole — here
empty — body under `"__raw"`). -/
theorem C1_amended_thm :
    HttpRequest.from "GET /?x=1 HTTP/1.1\r\nHost: h\r\n\r\n" [] "127.0.0.1" =
      Except.ok
        ⟨.Get, "/", .V1_1, "127.0.0.1", [("host", "h")], [("x", "1")],
          [("__raw", [])]⟩ := by
  decide

/-- C2 (counterexample): for the header block `GET\r\n\r\n`, whose request
line has a method token but no url token, `HttpRequest::from` fails with
the missing-VERSION error `无法解析http协议版本`, not the url error
`无法解析请求地址`: the source substitutes the default `"/"` for the missing
url and only fails at the third token. -/
theorem C2_counterexample :
    HttpRequest.from "GET\r\n\r\n" [] "127.0.0.1" =
      Except.error "无法解析http协议版本" ∧
    ("无法解析http协议版本" : String) ≠ "无法解析请求地址" := by
  refine ⟨by decide, by decide⟩

/-- C2 (amended): for every header block whose request line splits into
exactly one whitespace token (the method), `HttpRequest::from` fails — but
with the missing-version error: the url's absence is not itself an error
(the source defaults it to `"/"`), and the failure arises because the
version token is then also missing. -/
theorem C2_amended_thm (raw_header : String) (raw_body : List Nat) (ip : String)
    (req_ln : String) (rest : List String) (m : String)
    (h1 : rustLines raw_header = req_ln :: rest)
    (h2 : rustSplitWhitespace req_ln = [m]) :
    HttpRequest.from raw_header raw_body ip = .error "无法解析http协议版本" := by
  simp [HttpRequest.from, h1, h2]

/-- C2 (witness): the amended theorem applied to the concrete header block
`GET\r\n\r\n`. -/
theorem C2_witness :
    HttpRequest.from "GET\r\n\r\n" [] "127.0.0.1" =
      .error "无法解析http协议版本" :=
  C2_amended_thm "GET\r\n\r\n" [] "127.0.0.1" "GET" [""] "GET"
    (by decide) (by decide)

/-- C4: serializing a response yields exactly the status line, each header
line in key (map) order, a `Content-Length` line whose value is computed
fresh as the body's byte length (0 when absent) regardless of the declared
headers, a blank line, then the raw body bytes: `to_vec` equals the spec's
layout `to_vec_spec` for every response. -/
theorem C4_thm (r : HttpResponse) : r.to_vec = to_vec_spec r := by
  cases hb : r.body <;>
    simp [HttpResponse.to_vec, to_vec_spec, HttpResponse.headersStr, hb,
      strBytes_append, strBytes_crlfcrlf, strBytes_empty,
      headersStr_foldl_strBytes, List.append_assoc]

/-- C10: `read_head`'s size check counts every byte the header-phase reads
accumulate, body bytes past the `\r\n\r\n` boundary included: with
`max_header_size = 4`, a single 5-byte read whose first 4 bytes are the
complete (empty) header block `\r\n\r\n` and whose 5th byte is body data
fails with the size-limit error, even though the header block itself is
only 4 bytes ≤ `max_header_size`. -/
theorem C10_thm :
    read_head ⟨4, 4, 8, 8, 3, 3⟩ [[13, 10, 13, 10, 65]] =
      .error "请求头大小超出限制" ∧
    findSeq [13, 10, 13, 10] [13, 10, 13, 10, 65] = some 0 ∧
    (([13, 10, 13, 10, 65] : List Nat).take (0 + 4)).length ≤ 4 := by
  refine ⟨by decide, by decide, by decide⟩

/-- C5: (a) during header reading, any non-empty read that would push the
accumulated bytes past `max_header_size` fails at once with the size-limit
error (no body read can begin, since `read_head` has already returned);
in particular (b) a header block of `max_header_size + 1` bytes arriving
in one read fails that way; and (c) whenever the content length passed to
`read_body` exceeds `max_body_size`, `read_body` fails with the body
size-limit error for EVERY possible stream, i.e. before any body bytes are
read. -/
theorem C5_thm (s : HttpSettings) :
    (∀ (chunk : List Nat) (rest : List (List Nat)) (header : List Nat)
        (fails : Nat), chunk ≠ [] →
        s.max_header_size < header.length + chunk.length →
        read_head_loop s (chunk :: rest) header fails =
          .error "请求头大小超出限制") ∧
    (∀ (block : List Nat) (rest : List (List Nat)),
        block.length = s.max_header_size + 1 →
        read_head s (block :: rest) = .error "请求头大小超出限制") ∧
    (∀ (reads : List (List Nat)) (body : List Nat) (content_len : Nat),
        s.max_body_size < content_len →
        read_body s reads body content_len = .error "请求体大小超出限制") := by
  have h1 : ∀ (chunk : List Nat) (rest : List (List Nat)) (header : List Nat)
      (fails : Nat), chunk ≠ [] →
      s.max_header_size < header.length + chunk.length →
      read_head_loop s (chunk :: rest) header fails =
        .error "请求头大小超出限制" := by
    intro chunk rest header fails hne hsz
    rw [read_head_loop]
    rw [if_neg (by simpa [List.length_eq_zero] using hne), if_pos hsz]
  refine ⟨h1, ?_, ?_⟩
  · intro block rest hlen
    exact h1 block rest [] 0
      (by simp [← List.length_pos, hlen]) (by simp [hlen])
  · intro reads body content_len h
    rw [read_body, if_pos h]

/-- C5 (witness): the size-limit failures at concrete inputs — a 5-byte
read against `max_header_size = 4`, a 5-byte header block against
`max_header_size = 4`, and `content_len = 5` against `max_body_size = 4`. -/
theorem C5_witness :
    read_head_loop ⟨4, 4, 8, 8, 3, 3⟩ [[13, 10, 13, 10, 66]] [] 0 =
      .error "请求头大小超出限制" ∧
    read_head ⟨4, 4, 8, 8, 3, 3⟩ [[65, 65, 65, 65, 65]] =
      .error "请求头大小超出限制" ∧
    read_body ⟨4, 4, 8, 8, 3, 3⟩ [] [] 5 = .error "请求体大小超出限制" :=
  ⟨(C5_thm _).1 _ [] _ _ (by decide) (by decide),
   (C5_thm _).2.1 _ [] (by decide),
   (C5_thm _).2.2 [] [] 5 (by decide)⟩

/-- C3 (counterexample): with `body_buffer = 4` and `body_read_attempts
= 0`, a single read of 2 bytes against `content_length = 2` supplies
exactly the remaining bytes — and exactly the requested chunk size
`min body_buffer remaining = 2`, so it is not a short read by the claim's
definition — yet `read_body` fails: the code compares the read against the
full `body_buffer` and checks the budget after the append, before the
loop condition is re-examined. -/
theorem C3_counterexample :
    read_body ⟨8192, 8192, 8192, 4, 3, 0⟩ [[65, 66]] [] 2 =
      .error "请求体读取失败" ∧
    min 4 2 = ([65, 66] : List Nat).length := by
  refine ⟨by decide, by decide⟩

theorem read_body_loop_ok (s : HttpSettings) (content_len : Nat) :
    ∀ (reads : List (List Nat)) (body : List Nat) (fails : Nat),
      content_len ≤ body.length + (reads.flatten).length →
      fails + (reads.filter (fun c => c.length < s.body_buffer)).length ≤
        s.body_read_attempts →
      ∃ final, read_body_loop s reads body content_len fails = .ok final := by
  intro reads
  induction reads with
  | nil =>
    intro body fails h1 _
    exact ⟨body, by rw [read_body_loop, if_pos (by simpa using h1)]⟩
  | cons chunk rest ih =>
    intro body fails h1 h2
    simp only [List.filter_cons, decide_eq_true_eq] at h2
    rw [read_body_loop]
    by_cases hdone : content_len ≤ body.length
    · exact ⟨body, by rw [if_pos hdone]⟩
    · rw [if_neg hdone]
      by_cases hshort : chunk.length < s.body_buffer
      · rw [if_pos hshort] at h2 ⊢
        simp only [List.length_cons] at h2
        rw [if_neg (by omega)]
        exact ih (body ++ chunk) (fails + 1)
          (by simp at h1 ⊢; omega) (by omega)
      · rw [if_neg hshort] at h2 ⊢
        exact ih (body ++ chunk) fails (by simp at h1 ⊢; omega) (by omega)

theorem read_body_loop_fail (s : HttpSettings) (content_len : Nat)
    (c : List Nat) (rest : List (List Nat)) (hc : c.length < s.body_buffer) :
    ∀ (pre : List (List Nat)) (body : List Nat) (fails : Nat),
      fails + pre.length = s.body_read_attempts →
      (∀ x ∈ pre, x.length < s.body_buffer) →
      body.length + (pre.flatten).length < content_len →
      read_body_loop s (pre ++ c :: rest) body content_len fails =
        .error "请求体读取失败" := by
  intro pre
  induction pre with
  | nil =>
    intro body fails hbud _ hinc
    simp only [List.nil_append]
    rw [read_body_loop, if_neg (by simp at hinc; omega)]
    rw [if_pos hc, if_pos (by simp at hbud; omega)]
  | cons p pre' ih =>
    intro body fails hbud hall hinc
    simp only [List.cons_append]
    rw [read_body_loop, if_neg (by simp at hinc; omega)]
    rw [if_pos (hall p (by simp)), if_neg (by simp at hbud; omega)]
    exact ih (body ++ p) (fails + 1) (by simp at hbud ⊢; omega)
      (fun x hx => hall x (by simp [hx]))
      (by simp at hinc ⊢; omega)

/-- C3 (amended): for every settings value, `read_body` succeeds once the
accumulated body reaches `content_length` PROVIDED the number of reads
returning fewer bytes than `body_buffer` stays within `body_read_attempts`;
the failure counter is incremented by every read shorter than the full
`body_buffer` — not the requested chunk size `min body_buffer remaining` —
so even a read returning the whole requested chunk counts, and when the
budget is already exhausted such a read makes `read_body` fail although it
completes the body (second conjunct, with the completing read `c` arriving
after `body_read_attempts` earlier short reads). -/
theorem C3_amended_thm (s : HttpSettings) :
    (∀ (reads : List (List Nat)) (body : List Nat) (content_len : Nat),
        content_len ≤ s.max_body_size →
        content_len ≤ body.length + (reads.flatten).length →
        (reads.filter (fun c => c.length < s.body_buffer)).length ≤
          s.body_read_attempts →
        ∃ final, read_body s reads body content_len = .ok final) ∧
    (∀ (pre : List (List Nat)) (c : List Nat) (rest : List (List Nat))
        (body : List Nat) (content_len : Nat),
        content_len ≤ s.max_body_size →
        pre.length = s.body_read_attempts →
        (∀ x ∈ pre, x.length < s.body_buffer) → c.length < s.body_buffer →
        body.length + (pre.flatten).length < content_len →
        read_body s (pre ++ c :: rest) body content_len =
          .error "请求体读取失败") := by
  constructor
  · intro reads body content_len hmax h1 h2
    rw [read_body, if_neg (by omega)]
    exact read_body_loop_ok s content_len reads body 0 h1 (by simpa using h2)
  · intro pre c rest body content_len hmax hbud hall hc hinc
    rw [read_body, if_neg (by omega)]
    exact read_body_loop_fail s content_len c rest hc pre body 0
      (by omega) hall hinc

/-- C3 (witness): the amended theorem at concrete inputs — a 2-byte read
completing a 2-byte body succeeds when one short read is budgeted
(`body_read_attempts = 1`) and fails when none is
(`body_read_attempts = 0`). -/
theorem listStartsWith_append (pat l suf : List Nat)
    (h : listStartsWith pat l = true) :
    listStartsWith pat (l ++ suf) = true := by
  induction pat generalizing l with
  | nil => simp [listStartsWith]
  | cons a asR ih =>
    cases l with
    | nil => simp [listStartsWith] at h
    | cons b bs =>
      simp only [listStartsWith, Bool.and_eq_true] at h
      simpa [listStartsWith, h.1] using ih bs h.2

theorem findSeq_isSome_append (pat a b : List Nat)
    (h : (findSeq pat a).isSome) : (findSeq pat (a ++ b)).isSome := by
  induction a with
  | nil =>
    have hpat : listStartsWith pat [] = true := by
      by_contra hc
      rw [findSeq, if_neg hc] at h
      simp at h
    cases b with
    | nil => rw [List.nil_append]; exact h
    | cons x xs =>
      have h2 : listStartsWith pat (x :: xs) = true := by
        simpa using listStartsWith_append pat [] (x :: xs) hpat
      simp [findSeq, h2]
  | cons x xs ih =>
    rw [List.cons_append]
    rw [findSeq] at h
    rw [findSeq]
    by_cases hs : listStartsWith pat (x :: xs) = true
    · have h3 : listStartsWith pat (x :: (xs ++ b)) = true := by
        simpa using listStartsWith_append pat (x :: xs) b hs
      simp [h3]
    · rw [if_neg hs] at h
      by_cases hs2 : listStartsWith pat (x :: (xs ++ b)) = true
      · simp [hs2]
      · rw [if_neg hs2]
        cases hfs : findSeq pat xs with
        | none => rw [hfs] at h; simp at h
        | some i =>
          obtain ⟨j, hj⟩ := Option.isSome_iff_exists.mp (ih (by simp [hfs]))
          simp [hj]

theorem utf8Step_ascii (b : Nat) (rest : List Nat) (hb : b ≤ 127) :
    utf8Step (b :: rest) = some (b, 1) := by
  rw [utf8Step.eq_def]
  exact if_pos hb

theorem utf8Decode_ascii (l : List Nat) (h : ∀ b ∈ l, b ≤ 127) :
    (utf8Decode l).isSome := by
  induction l with
  | nil => rfl
  | cons b rest ih =>
    have hb : b ≤ 127 := h b (by simp)
    obtain ⟨cs, hcs⟩ :=
      Option.isSome_iff_exists.mp (ih (fun x hx => h x (by simp [hx])))
    have hlen : utf8Decode (b :: rest) =
        utf8DecodeAux (rest.length + 1) (b :: rest) := rfl
    rw [hlen, utf8DecodeAux, utf8Step_ascii b rest hb]
    simp only [List.drop_succ_cons, List.drop_zero]
    rw [show utf8DecodeAux rest.length rest = utf8Decode rest from rfl, hcs]
    rfl

theorem read_head_loop_ok (s : HttpSettings) :
    ∀ (reads : List (List Nat)) (header : List Nat) (fails : Nat),
      (∀ c ∈ reads, c ≠ [] ∧ c.length < s.header_buffer) →
      header.length + (reads.flatten).length ≤ s.max_header_size →
      fails + reads.length ≤ s.header_read_attempts + 1 →
      (findSeq [13, 10, 13, 10] (header ++ reads.flatten)).isSome →
      findSeq [13, 10, 13, 10] header = none →
      (∀ b ∈ header ++ reads.flatten, b ≤ 127) →
      ∃ h b, read_head_loop s reads header fails = .ok (h, b) := by
  intro reads
  induction reads with
  | nil =>
    intro header fails _ _ _ hsome hnone _
    rw [List.flatten_nil, List.append_nil] at hsome
    simp [hnone] at hsome
  | cons chunk rest ih =>
    intro header fails hchunks hsz hbud hsome hnone hascii
    have hcne : chunk.length ≠ 0 := by
      simpa [List.length_eq_zero] using (hchunks chunk (by simp)).1
    have hcsh : chunk.length < s.header_buffer := (hchunks chunk (by simp)).2
    have hassoc : (header ++ chunk) ++ rest.flatten =
        header ++ (chunk :: rest).flatten := by
      simp [List.flatten_cons, List.append_assoc]
    simp only [read_head_loop]
    rw [if_neg hcne, if_neg (by simp at hsz; omega)]
    cases hfind : findSeq [13, 10, 13, 10] (header ++ chunk) with
    | some pos =>
      have hhead : ∀ b ∈ (header ++ chunk).take (pos + 4), b ≤ 127 := by
        intro b hb
        refine hascii b ?_
        have hmem : b ∈ header ++ chunk := List.mem_of_mem_take hb
        rw [← hassoc]
        simp at hmem ⊢
        tauto
      obtain ⟨cs, hcs⟩ :=
        Option.isSome_iff_exists.mp
          (utf8Decode_ascii ((header ++ chunk).take (pos + 4)) hhead)
      exact ⟨(header ++ chunk).take (pos + 4), (header ++ chunk).drop (pos + 4),
        by simp [hcs]⟩
    | none =>
      have hrest : rest ≠ [] := by
        intro hre
        subst hre
        simp only [List.flatten_cons, List.flatten_nil,
          List.append_nil] at hsome
        rw [hfind] at hsome
        simp at hsome
      rw [if_pos hcsh]
      rw [if_neg (by
        have h1 : 1 ≤ rest.length := List.length_pos.mpr hrest
        simp at hbud; omega)]
      refine ih (header ++ chunk) (fails + 1)
        (fun c hc => hchunks c (by simp [hc])) ?_ ?_ ?_ hfind ?_
      · simp at hsz ⊢; omega
      · simp at hbud ⊢; omega
      · rw [hassoc]; exact hsome
      · rw [hassoc]; exact hascii

theorem read_head_loop_fail (s : HttpSettings) :
    ∀ (reads more : List (List Nat)) (header : List Nat) (fails : Nat),
      (∀ c ∈ reads, c ≠ [] ∧ c.length < s.header_buffer) →
      header.length + (reads.flatten).length ≤ s.max_header_size →
      fails + reads.length = s.header_read_attempts + 1 →
      findSeq [13, 10, 13, 10] (header ++ reads.flatten) = none →
      reads ≠ [] →
      read_head_loop s (reads ++ more) header fails =
        .error "读取请求头失败" := by
  intro reads
  induction reads with
  | nil => intro more header fails _ _ _ _ hne; exact absurd rfl hne
  | cons chunk rest ih =>
    intro more header fails hchunks hsz hbud hnone _
    have hcne : chunk.length ≠ 0 := by
      simpa [List.length_eq_zero] using (hchunks chunk (by simp)).1
    have hcsh : chunk.length < s.header_buffer := (hchunks chunk (by simp)).2
    have hassoc : (header ++ chunk) ++ rest.flatten =
        header ++ (chunk :: rest).flatten := by
      simp [List.flatten_cons, List.append_assoc]
    have hfind : findSeq [13, 10, 13, 10] (header ++ chunk) = none := by
      cases hf : findSeq [13, 10, 13, 10] (header ++ chunk) with
      | none => rfl
      | some pos =>
        have h2 := findSeq_isSome_append [13, 10, 13, 10] (header ++ chunk)
          rest.flatten (by simp [hf])
        rw [hassoc, hnone] at h2
        simp at h2
    simp only [List.cons_append]
    simp only [read_head_loop]
    rw [if_neg hcne, if_neg (by simp at hsz; omega)]
    simp only [hfind]
    rw [if_pos hcsh]
    cases rest with
    | nil =>
      rw [if_pos (by simp at hbud; omega)]
    | cons r rs =>
      rw [if_neg (by simp at hbud; omega)]
      refine ih more (header ++ chunk) (fails + 1)
        (fun c hc => hchunks c (by simp [hc])) ?_ ?_ ?_ (by simp)
      · simp at hsz ⊢; omega
      · simp at hbud ⊢; omega
      · rw [hassoc]; exact hnone

/-- C6: the short-read policy of `read_head`. (i) Reads all shorter than
`header_buffer` (and non-empty, within the size limit, ASCII so the UTF-8
decode succeeds), at most `header_read_attempts + 1` of them — i.e. at
most `header_read_attempts` short reads before the read in which the
boundary is found, which itself spends no attempt — succeed once
`\r\n\r\n` appears in the accumulated bytes. (ii) Exactly
`header_read_attempts + 1` such reads without the boundary appearing fail
with the attempt-budget error, whatever the stream would deliver later.
(iii) A read of zero bytes terminates the loop at once with the final
failure (the boundary was never found in any earlier iteration, else the
loop would have returned). -/
theorem C6_thm (s : HttpSettings) :
    (∀ reads : List (List Nat),
      (∀ c ∈ reads, c ≠ [] ∧ c.length < s.header_buffer) →
      (reads.flatten).length ≤ s.max_header_size →
      reads.length ≤ s.header_read_attempts + 1 →
      (findSeq [13, 10, 13, 10] reads.flatten).isSome →
      (∀ b ∈ reads.flatten, b ≤ 127) →
      ∃ h b, read_head s reads = .ok (h, b)) ∧
    (∀ reads more : List (List Nat),
      (∀ c ∈ reads, c ≠ [] ∧ c.length < s.header_buffer) →
      (reads.flatten).length ≤ s.max_header_size →
      reads.length = s.header_read_attempts + 1 →
      findSeq [13, 10, 13, 10] reads.flatten = none →
      read_head s (reads ++ more) = .error "读取请求头失败") ∧
    (∀ (rest : List (List Nat)) (header : List Nat) (fails : Nat),
      read_head_loop s ([] :: rest) header fails = .error "请求头读取失败") := by
  refine ⟨?_, ?_, ?_⟩
  · intro reads hc hsz hbud hsome hascii
    exact read_head_loop_ok s reads [] 0 hc (by simpa using hsz)
      (by simpa using hbud) (by simpa using hsome) (by decide)
      (by simpa using hascii)
  · intro reads more hc hsz hbud hnone
    refine read_head_loop_fail s reads more [] 0 hc (by simpa using hsz)
      (by simpa using hbud) (by simpa using hnone) ?_
    intro hre
    rw [hre] at hbud
    simp at hbud
  · intro rest header fails
    simp [read_head_loop]

/-- C6 (witness): with `header_buffer = 10` and `header_read_attempts =
3`: two short reads whose concatenation ends in `\r\n\r\n` succeed; four
short boundary-free reads exhaust the budget and fail; a zero-byte read
fails at once. -/
theorem C6_witness :
    (∃ h b, read_head ⟨100, 1000, 10, 10, 3, 3⟩ [[71, 13], [10, 13, 10]] =
      .ok (h, b)) ∧
    read_head ⟨100, 1000, 10, 10, 3, 3⟩ ([[65], [65], [65], [65]] ++ []) =
      .error "读取请求头失败" ∧
    read_head_loop ⟨100, 1000, 10, 10, 3, 3⟩ ([] :: []) [] 0 =
      .error "请求头读取失败" :=
  ⟨(C6_thm _).1 [[71, 13], [10, 13, 10]] (by decide) (by decide) (by decide)
      (by decide) (by decide),
   (C6_thm _).2.1 [[65], [65], [65], [65]] [] (by decide) (by decide)
      (by decide) (by decide),
   (C6_thm _).2.2 [] [] 0⟩

theorem C3_witness :
    (∃ final, read_body ⟨8192, 10, 8192, 4, 3, 1⟩ [[65, 66]] [] 2 =
      .ok final) ∧
    read_body ⟨8192, 10, 8192, 4, 3, 0⟩ [[65, 66]] [] 2 =
      .error "请求体读取失败" :=
  ⟨(C3_amended_thm _).1 [[65, 66]] [] 2 (by decide) (by decide) (by decide),
   (C3_amended_thm _).2 [] [65, 66] [] [] 2 (by decide) (by decide)
     (by decide) (by decide) (by decide)⟩

theorem takeWhile_ne_eq_self (c : Char) (l : List Char) (h : c ∉ l) :
    l.takeWhile (fun a => a ≠ c) = l := by
  rw [List.takeWhile_eq_self_iff]
  intro a ha
  simp only [ne_eq, decide_not, Bool.not_eq_true', decide_eq_false_iff_not]
  exact fun he => h (he ▸ ha)

/-- C8: query-string parsing. (i) `a=1&b=2` parses to
`{"a": "1", "b": "2"}`; (ii) a piece containing no `=` yields its key
(trimmed, lower-cased) mapped to the empty string; (iii) inserting the
same key twice keeps only the last value — last occurrence wins; (iv) a
concrete duplicate-key query with padding shows trimming, lower-casing
and last-wins together. -/
theorem C8_thm :
    parse_parameters "a=1&b=2" = .ok [("a", "1"), ("b", "2")] ∧
    (∀ p : String, '=' ∉ p.data →
      parse_piece p = (rustLower (rustTrim p), "")) ∧
    (∀ (k v₁ v₂ : String) (m : List (String × String)),
      mapInsert k v₂ (mapInsert k v₁ m) = mapInsert k v₂ m) ∧
    parse_parameters " A =1&a= 2 " = .ok [("a", "2")] := by
  refine ⟨by decide, ?_, ?_, by decide⟩
  · intro p hp
    have htw := takeWhile_ne_eq_self '=' p.data hp
    simp only [parse_piece, splitn2Char]
    rw [htw, if_pos rfl]
  · intro k v₁ v₂ m
    induction m with
    | nil => simp [mapInsert]
    | cons kv rest ih =>
      obtain ⟨k', v'⟩ := kv
      by_cases hk : k = k'
      · simp [mapInsert, hk]
      · by_cases hlt : strLt k k' = true
        · simp [mapInsert, hk, hlt]
        · simp [mapInsert, hk, hlt, ih]

/-- C8 (witness): the per-piece rule at the concrete piece `abc` (no `=`),
and last-wins at a concrete duplicate insertion. -/
theorem C8_witness :
    parse_piece "abc" = (rustLower (rustTrim "abc"), "") ∧
    mapInsert "k" "2" (mapInsert "k" "1" []) = mapInsert "k" "2" [] :=
  ⟨C8_thm.2.1 "abc" (by decide), C8_thm.2.2.1 "k" "1" "2" []⟩

theorem parse_parameters_ne_nil (raw : String) (m : List (String × String))
    (h : parse_parameters raw = .ok m) : m ≠ [] :=
  parse_parameters_gen_ne_nil raw _ m h

/-- C9: applied to the empty string — as happens for every request whose
URL has no `?` — `parse_parameters` returns the singleton `{"": ""}`, not
the empty mapping; consequently the `search_params` of every successfully
decoded request is non-empty. -/
theorem C9_thm :
    parse_parameters "" = .ok [("", "")] ∧
    ∀ (raw_header : String) (raw_body : List Nat) (ip : String)
      (req : HttpRequest),
      HttpRequest.from raw_header raw_body ip = .ok req →
      req.search_params ≠ [] := by
  refine ⟨by decide, ?_⟩
  intro raw_header raw_body ip req h
  simp only [HttpRequest.from] at h
  split at h
  · simp at h
  split at h
  · simp at h
  split at h
  · simp at h
  split at h
  · simp at h
  split at h
  · simp at h
  rename_i sp hsp
  split at h
  · simp at h
  simp only [Except.ok.injEq] at h
  subst h
  exact parse_parameters_ne_nil _ _ hsp

/-- C9 (witness): the non-emptiness of `search_params` at a concrete
query-less request. -/
theorem C9_witness :
    (HttpRequest.mk .Get "/" .V1_1 "1.2.3.4" [] [("", "")]
      [("__raw", [])]).search_params ≠ [] :=
  C9_thm.2 "GET / HTTP/1.1\r\n\r\n" [] "1.2.3.4" _ (by decide)

end RustHttp
